import Mathlib

/-!
# Verification of the three-body-tui simulation core

Shallow embedding of the Rust sources (`src/main.rs`, `src/simulations.rs`,
`src/simulations/nbody.rs`) of the `three-body-tui` repository.

Embedding conventions:
* `f64` values are modelled as real numbers (`ℝ`).  Lean's convention
  `x / 0 = 0` stands in for the IEEE non-finite results; where a claim
  hinges on a genuine division by zero the embedding makes the degeneracy
  explicit (an `Option` result or an explicit saturation value) and the
  accompanying comment records the actual IEEE behaviour.
* `usize` arithmetic that can underflow (`self.entities.len() - 1` with an
  empty collection, which panics in debug builds and makes the loop bound
  wrap in release builds — the source itself carries the comment
  `// TODO: program freezes when removing last entity`) is modelled by an
  `Option` result: `none` is the failing computation.
* `VecDeque<Body>` is modelled as `List Body` with the front of the deque at
  the head of the list: `push_back` appends, `pop_front` drops the head.
* `.powi(2)` is `^ 2`; `.powf(0.5)`, always applied to a sum of squares
  (a nonnegative number) in this code, is `Real.sqrt`.
* `f64::clamp(lo, hi)` on the (never-NaN-free-checked) accelerations is
  `min (max v lo) hi`, which is the IEEE behaviour for non-NaN inputs.
* The rendering, terminal and RNG layers carry no algorithmic content for
  the claims and are not modelled; `Body.rand` only fixes `mass = 1`, which
  is irrelevant to every claim below (all claims quantify over bodies).

The physics of `App::update_entities` (main.rs) and `NBody::update`
(simulations/nbody.rs) is line-for-line identical; the embedding below is
written once, against the nbody.rs copy, and serves for both.
-/

/-- A point mass: `struct Body { mass, x, y, dx, dy, icon }` (nbody.rs:28-36).
The `icon` field is display-only (a glyph and a colour) and carries no
simulation content, so it is omitted from the embedding. -/
@[ext]
structure Body where
  mass : ℝ
  x : ℝ
  y : ℝ
  dx : ℝ
  dy : ℝ

instance : Inhabited Body := ⟨⟨0, 0, 0, 0, 0⟩⟩

/-- `Body::get_trail` (nbody.rs:72-81): a mass-0, zero-velocity snapshot of
the body's current position. -/
noncomputable def Body.get_trail (b : Body) : Body :=
  { mass := 0, x := b.x, y := b.y, dx := 0, dy := 0 }

/-- Rust `f64::clamp(lo, hi)` for non-NaN input: at most `hi`, at least `lo`. -/
noncomputable def fclamp (v lo hi : ℝ) : ℝ := min (max v lo) hi

/-- `Body::step` (nbody.rs:87-98): acceleration from force and mass, clamped
per component to `[-0.1, 0.1]`, constant-acceleration kinematics over `time`,
then the multiplicative drag on the velocity.  The Rust method mutates the
fields in sequence (`x += ...` before `dx += ...`, drag last); the record
below is that same sequence written functionally. -/
noncomputable def Body.step (b : Body) (force : ℝ × ℝ) (time drag : ℝ) : Body :=
  let ddx := fclamp (force.1 / b.mass) (-0.1) 0.1
  let ddy := fclamp (force.2 / b.mass) (-0.1) 0.1
  { mass := b.mass
    x := b.x + (b.dx * time + 0.5 * ddx * time ^ 2)
    y := b.y + (b.dy * time + 0.5 * ddy * time ^ 2)
    dx := (b.dx + ddx * time) * drag
    dy := (b.dy + ddy * time) * drag }

/-- Modelled from the spec: clamping "to the range [-0.1, 0.1]" stated as the
range test the claim describes, used as the spec-side comparator for the
refinement claim C3. -/
noncomputable def clampSpec (v : ℝ) : ℝ :=
  if v < -0.1 then -0.1 else if v > 0.1 then 0.1 else v

/-- Modelled from the spec: one integration step as C3 words it —
"acceleration as accumulated force divided by mass", each component clamped
by `clampSpec`, "position by velocity*t + 0.5*acceleration*t^2 and velocity
by acceleration*t", finally the velocity "multiplied by the drag factor". -/
noncomputable def stepSpec (b : Body) (force : ℝ × ℝ) (t drag : ℝ) : Body :=
  let ax := clampSpec (force.1 / b.mass)
  let ay := clampSpec (force.2 / b.mass)
  { mass := b.mass
    x := b.x + b.dx * t + 0.5 * ax * t ^ 2
    y := b.y + b.dy * t + 0.5 * ay * t ^ 2
    dx := (b.dx + ax * t) * drag
    dy := (b.dy + ay * t) * drag }

lemma fclamp_eq_clampSpec (v : ℝ) : fclamp v (-0.1) 0.1 = clampSpec v := by
  unfold fclamp clampSpec
  rcases lt_or_le v (-0.1) with h1 | h1
  · rw [if_pos h1, max_eq_right h1.le, min_eq_left (by norm_num)]
  · rw [if_neg (not_lt.mpr h1), max_eq_left h1]
    rcases lt_or_le (0.1 : ℝ) v with h2 | h2
    · rw [if_pos h2, min_eq_right h2.le]
    · rw [if_neg (not_lt.mpr h2), min_eq_left h2]

/-- C3: for every body with positive mass, one integration step computes
acceleration as accumulated force divided by mass, clamps each acceleration
component to `[-0.1, 0.1]` before integration, updates position by
`velocity*t + 0.5*acceleration*t^2` and velocity by `acceleration*t`, and
finally multiplies the resulting velocity by the drag factor. -/
theorem C3_step_formula (b : Body) (force : ℝ × ℝ) (t drag : ℝ)
    (h : 0 < b.mass) : b.step force t drag = stepSpec b force t drag := by
  unfold Body.step stepSpec
  simp only [fclamp_eq_clampSpec]
  ext <;> ring

theorem C3_step_formula_witness :
    0 < (2 : ℝ) ∧
      Body.step ⟨2, 1, 1, 3, -3⟩ (1, -1) 2 (1/2) =
        stepSpec ⟨2, 1, 1, 3, -3⟩ (1, -1) 2 (1/2) :=
  ⟨by norm_num, C3_step_formula ⟨2, 1, 1, 3, -3⟩ (1, -1) 2 (1/2) (by norm_num)⟩

/-- The unordered index pairs the force loops visit (nbody.rs:192-193):
`for i in 0..len-1 { for j in (i+1)..len { ... } }`.  `List.range' (i+1) (n-(i+1))`
is the inner range `(i+1)..n`.  Note the `n - 1` in the outer bound: for
`n = 0` the Rust `usize` subtraction underflows (see `NBody.update`, which
models that failure with an `Option`); the pair list itself is only consulted
for nonempty collections, where `Nat` and `usize` subtraction agree. -/
def forcePairs (n : ℕ) : List (ℕ × ℕ) :=
  (List.range (n - 1)).flatMap
    (fun i => (List.range' (i + 1) (n - (i + 1))).map (fun j => (i, j)))

/-- `let r = ((a.x - b.x).powi(2) + (a.y - b.y).powi(2)).powf(0.5)`
(nbody.rs:196): the Euclidean separation of the pair. -/
noncomputable def pairSep (a b : Body) : ℝ :=
  Real.sqrt ((a.x - b.x) ^ 2 + (a.y - b.y) ^ 2)

/-- `let force = G * a.mass * b.mass / r.powi(2)` (nbody.rs:197). -/
noncomputable def pairForceMag (g : ℝ) (a b : Body) : ℝ :=
  g * a.mass * b.mass / pairSep a b ^ 2

/-- `let ab_hat = ((a.x - b.x) / r, (a.y - b.y) / r)` (nbody.rs:198). -/
noncomputable def abHat (a b : Body) : ℝ × ℝ :=
  ((a.x - b.x) / pairSep a b, (a.y - b.y) / pairSep a b)

/-- The vector `ab_hat * force` whose negation is accumulated on `forces[i]`
and which is accumulated as-is on `forces[j]` (nbody.rs:199-206). -/
noncomputable def pairContribution (g : ℝ) (a b : Body) : ℝ × ℝ :=
  ((abHat a b).1 * pairForceMag g a b, (abHat a b).2 * pairForceMag g a b)

/-- One iteration of the inner force loop (nbody.rs:194-207) for the pair
`p = (i, j)`: subtract the contribution from entry `i` of the force vector,
add it to entry `j`. -/
noncomputable def applyPairForce (g : ℝ) (es : List Body) (fs : List (ℝ × ℝ))
    (p : ℕ × ℕ) : List (ℝ × ℝ) :=
  let a := es.getD p.1 default
  let b := es.getD p.2 default
  let c := pairContribution g a b
  let fi := fs.getD p.1 (0, 0)
  let fs1 := fs.set p.1 (fi.1 - c.1, fi.2 - c.2)
  let fj := fs1.getD p.2 (0, 0)
  fs1.set p.2 (fj.1 + c.1, fj.2 + c.2)

/-- The whole force-accumulation pass (nbody.rs:191-209): a zero force vector
per body (`vec![(0., 0.); len]`), then the two nested loops, i.e. a fold of
`applyPairForce` over `forcePairs`. -/
noncomputable def computeForces (g : ℝ) (es : List Body) : List (ℝ × ℝ) :=
  (forcePairs es.length).foldl (applyPairForce g es) (List.replicate es.length (0, 0))

lemma mem_forcePairs {n i j : ℕ} : (i, j) ∈ forcePairs n ↔ i < j ∧ j < n := by
  unfold forcePairs
  simp only [List.mem_flatMap, List.mem_range, List.mem_map, List.mem_range']
  constructor
  · rintro ⟨i', hi', ⟨j', ⟨k, hk, rfl⟩, h⟩⟩
    obtain ⟨h1, h2⟩ := Prod.mk.injEq .. ▸ h
    omega
  · rintro ⟨hij, hjn⟩
    exact ⟨i, by omega, j, ⟨j - (i + 1), by omega, by omega⟩, rfl⟩

lemma forcePairs_nodup (n : ℕ) : (forcePairs n).Nodup := by
  unfold forcePairs
  rw [List.nodup_flatMap]
  refine ⟨fun i _ => (List.nodup_range' _ _).map ?_, ?_⟩
  · intro a b hab
    exact (Prod.mk.injEq .. ▸ hab).2
  · refine (List.pairwise_lt_range _).imp ?_
    intro a b hab x hxa hxb
    obtain ⟨_, _, rfl⟩ := List.mem_map.mp hxa
    obtain ⟨_, _, h⟩ := List.mem_map.mp hxb
    exact absurd (Prod.mk.injEq .. ▸ h).1 (by omega)

lemma count_eq_one_of_nodup_mem {α : Type _} [BEq α] [LawfulBEq α] {a : α}
    {l : List α} (hn : l.Nodup) (ha : a ∈ l) : l.count a = 1 := by
  induction l with
  | nil => cases ha
  | cons b t ih =>
    rcases List.mem_cons.mp ha with rfl | hat
    · have hnt : a ∉ t := (List.nodup_cons.mp hn).1
      rw [List.count_cons_self, List.count_eq_zero.mpr hnt]
    · have hab : ¬(b == a) = true := by
        intro hc
        exact (List.nodup_cons.mp hn).1 (by rw [eq_of_beq hc]; exact hat)
      rw [List.count_cons, ih (List.nodup_cons.mp hn).2 hat, if_neg hab]

lemma forcePairs_count {n i j : ℕ} (hij : i < j) (hj : j < n) :
    (forcePairs n).count (i, j) = 1 :=
  count_eq_one_of_nodup_mem (forcePairs_nodup n) (mem_forcePairs.mpr ⟨hij, hj⟩)

lemma getD_set_of_ne {α : Type _} (l : List α) (i j : ℕ) (h : i ≠ j) (u d : α) :
    (l.set i u).getD j d = l.getD j d := by
  rw [List.getD_eq_getElem?_getD, List.getElem?_set_ne h, ← List.getD_eq_getElem?_getD]

lemma getD_set_self {α : Type _} (l : List α) (i : ℕ) (h : i < l.length) (u d : α) :
    (l.set i u).getD i d = u := by
  rw [List.getD_eq_getElem?_getD, List.getElem?_set_self h]
  rfl

/-- C4: for a pair of distinct bodies `i < j` at nonzero separation, the
force pass adds the vector `pairContribution` to `forces[j]` and exactly its
negation to `forces[i]`, leaves every other entry untouched, and the loop
nest visits the unordered pair `(i, j)` exactly once. -/
theorem C4_newton_third_law (g : ℝ) (es : List Body) (fs : List (ℝ × ℝ)) (i j : ℕ)
    (hij : i < j) (hj : j < es.length) (hfs : fs.length = es.length)
    (hsep : ((es.getD i default).x - (es.getD j default).x) ^ 2 +
        ((es.getD i default).y - (es.getD j default).y) ^ 2 ≠ 0) :
    (∃ v : ℝ × ℝ,
      (applyPairForce g es fs (i, j)).getD i (0, 0) =
        ((fs.getD i (0, 0)).1 - v.1, (fs.getD i (0, 0)).2 - v.2) ∧
      (applyPairForce g es fs (i, j)).getD j (0, 0) =
        ((fs.getD j (0, 0)).1 + v.1, (fs.getD j (0, 0)).2 + v.2) ∧
      ∀ k, k ≠ i → k ≠ j → (applyPairForce g es fs (i, j)).getD k (0, 0) = fs.getD k (0, 0)) ∧
    (forcePairs es.length).count (i, j) = 1 := by
  have hne : i ≠ j := Nat.ne_of_lt hij
  have hi' : i < fs.length := by omega
  have hj' : j < fs.length := by omega
  refine ⟨?_, forcePairs_count hij (by omega)⟩
  refine ⟨pairContribution g (es.getD i default) (es.getD j default), ?_, ?_, ?_⟩
  · show ((fs.set i _).set j _).getD i (0, 0) = _
    rw [getD_set_of_ne _ j i (Ne.symm hne), getD_set_self _ i hi']
  · show ((fs.set i _).set j _).getD j (0, 0) = _
    rw [getD_set_self _ j (by simpa using hj'), getD_set_of_ne _ i j hne]
  · intro k hki hkj
    show ((fs.set i _).set j _).getD k (0, 0) = _
    rw [getD_set_of_ne _ j k (Ne.symm hkj), getD_set_of_ne _ i k (Ne.symm hki)]

/-- Concrete instantiation of C4: two unit masses at `(0,0)` and `(3,4)`,
separation `5`, pair `(0, 1)` of the two-body collection. -/
noncomputable def c4Bodies : List Body := [⟨1, 0, 0, 0, 0⟩, ⟨1, 3, 4, 0, 0⟩]

/-- The zero initial force vector for the two-body C4 instance. -/
noncomputable def c4Forces : List (ℝ × ℝ) := [(0, 0), (0, 0)]

theorem C4_newton_third_law_witness :
    ((0 : ℕ) < 1 ∧ 1 < c4Bodies.length ∧ c4Forces.length = c4Bodies.length ∧
      ((c4Bodies.getD 0 default).x - (c4Bodies.getD 1 default).x) ^ 2 +
        ((c4Bodies.getD 0 default).y - (c4Bodies.getD 1 default).y) ^ 2 ≠ 0) ∧
    ((∃ v : ℝ × ℝ,
      (applyPairForce 100 c4Bodies c4Forces (0, 1)).getD 0 (0, 0) =
        ((c4Forces.getD 0 (0, 0)).1 - v.1, (c4Forces.getD 0 (0, 0)).2 - v.2) ∧
      (applyPairForce 100 c4Bodies c4Forces (0, 1)).getD 1 (0, 0) =
        ((c4Forces.getD 1 (0, 0)).1 + v.1, (c4Forces.getD 1 (0, 0)).2 + v.2) ∧
      ∀ k, k ≠ 0 → k ≠ 1 →
        (applyPairForce 100 c4Bodies c4Forces (0, 1)).getD k (0, 0) =
          c4Forces.getD k (0, 0)) ∧
    (forcePairs c4Bodies.length).count (0, 1) = 1) :=
  ⟨⟨by norm_num, by norm_num [c4Bodies], by norm_num [c4Bodies, c4Forces],
      by norm_num [c4Bodies]⟩,
    C4_newton_third_law 100 c4Bodies c4Forces 0 1 (by norm_num)
      (by norm_num [c4Bodies]) (by norm_num [c4Bodies, c4Forces])
      (by norm_num [c4Bodies])⟩

/-- The inlier test of `ransac_centroid` (nbody.rs:107-122): distance from the
candidate centre `cc` to the body, `(dx² + dy²).powf(0.5)`, strictly below
the fixed radius `150.`. -/
noncomputable def isInlier (cc : ℝ × ℝ) (e : Body) : Bool :=
  decide (Real.sqrt ((cc.1 - e.x) ^ 2 + (cc.2 - e.y) ^ 2) < 150)

/-- One iteration of the candidate loop of `ransac_centroid`
(nbody.rs:104-127), acting on the running state `st = (center,
highest_inliers)`.  The source counts inliers as
`points.iter().map(dist).filter(|&d| d < 150.).count()`, which is the length
of `points` filtered by the same distance test; when the candidate beats the
running best, the centre becomes the coordinate sums over the inlier set
divided by the **total** point count `points.len()` (nbody.rs:124-125). -/
noncomputable def ransacStep (points : List Body) (st : (ℝ × ℝ) × ℕ) (i : ℕ) :
    (ℝ × ℝ) × ℕ :=
  let cc := ((points.getD i default).x, (points.getD i default).y)
  let inliers := (points.filter (isInlier cc)).length
  if st.2 < inliers then
    let s := (points.filter (isInlier cc)).foldl
      (fun acc e => (acc.1 + e.x, acc.2 + e.y)) (0, 0)
    ((s.1 / (points.length : ℝ), s.2 / (points.length : ℝ)), inliers)
  else st

/-- `ransac_centroid` (nbody.rs:101-129): start from `center = (0., 0.)` and
`highest_inliers = 0`, run the candidate loop over `0..points.len()`, return
the final centre. -/
noncomputable def ransac_centroid (points : List Body) : ℝ × ℝ :=
  ((List.range points.length).foldl (ransacStep points) ((0, 0), 0)).1

lemma foldl_add_pair (l : List Body) (a b : ℝ) :
    l.foldl (fun acc e => (acc.1 + e.x, acc.2 + e.y)) (a, b) =
      (a + (l.map Body.x).sum, b + (l.map Body.y).sum) := by
  induction l generalizing a b with
  | nil => simp
  | cons e t ih => simp [ih, add_assoc]

lemma getD_mem_of_lt {α : Type _} [Inhabited α] (l : List α) (i : ℕ)
    (hi : i < l.length) : l.getD i default ∈ l := by
  rw [List.getD_eq_getElem?_getD, List.getElem?_eq_getElem hi]
  simpa using List.getElem_mem hi

/-- C6: for a nonempty collection in which all bodies lie within the inlier
radius (150) of each other, the RANSAC centroid is the sum of all positions
divided by the total body count — the arithmetic mean of all positions. -/
theorem C6_centroid_is_mean (points : List Body) (hne : points ≠ [])
    (hall : ∀ a ∈ points, ∀ b ∈ points,
      Real.sqrt ((a.x - b.x) ^ 2 + (a.y - b.y) ^ 2) < 150) :
    ransac_centroid points =
      ((points.map Body.x).sum / (points.length : ℝ),
       (points.map Body.y).sum / (points.length : ℝ)) := by
  have hn : 0 < points.length := List.length_pos.mpr hne
  obtain ⟨m, hm⟩ : ∃ m, points.length = m + 1 := ⟨points.length - 1, by omega⟩
  have hinl : ∀ i, i < points.length →
      points.filter (isInlier ((points.getD i default).x, (points.getD i default).y)) =
        points := by
    intro i hi
    refine List.filter_eq_self.mpr fun e he => ?_
    unfold isInlier
    exact decide_eq_true (hall _ (getD_mem_of_lt points i hi) _ he)
  have hstep_id : ∀ (st : (ℝ × ℝ) × ℕ), st.2 = points.length →
      ∀ i, i < points.length → ransacStep points st i = st := by
    intro st hst i hi
    simp only [ransacStep]
    rw [hinl i hi, hst]
    simp
  have hfold_id : ∀ (l : List ℕ) (st : (ℝ × ℝ) × ℕ), st.2 = points.length →
      (∀ i ∈ l, i < points.length) → l.foldl (ransacStep points) st = st := by
    intro l
    induction l with
    | nil => intro st _ _; rfl
    | cons a t ih =>
      intro st hst hmem
      rw [List.foldl_cons, hstep_id st hst a (hmem a (by simp))]
      exact ih st hst (fun i hi => hmem i (by simp [hi]))
  have h0 : ransacStep points ((0, 0), 0) 0 =
      (((points.map Body.x).sum / (points.length : ℝ),
        (points.map Body.y).sum / (points.length : ℝ)), points.length) := by
    simp only [ransacStep]
    rw [hinl 0 hn]
    rw [if_pos (by simpa using hn)]
    rw [foldl_add_pair]
    simp
  unfold ransac_centroid
  rw [show List.range points.length = 0 :: List.map Nat.succ (List.range m) from by
        rw [hm, List.range_succ_eq_map],
      List.foldl_cons, h0,
      hfold_id _ _ rfl (by
        intro i hi
        obtain ⟨j, hj, rfl⟩ := List.mem_map.mp hi
        have := List.mem_range.mp hj
        omega)]

/-- Concrete instantiation of C6: two bodies at `(2,3)` and `(4,5)`,
separation `√8 < 150`. -/
noncomputable def c6Bodies : List Body := [⟨1, 2, 3, 0, 0⟩, ⟨1, 4, 5, 0, 0⟩]

theorem C6_centroid_is_mean_witness :
    (c6Bodies ≠ [] ∧ ∀ a ∈ c6Bodies, ∀ b ∈ c6Bodies,
        Real.sqrt ((a.x - b.x) ^ 2 + (a.y - b.y) ^ 2) < 150) ∧
    ransac_centroid c6Bodies = (3, 4) := by
  have hall : ∀ a ∈ c6Bodies, ∀ b ∈ c6Bodies,
      Real.sqrt ((a.x - b.x) ^ 2 + (a.y - b.y) ^ 2) < 150 := by
    intro a ha b hb
    rw [Real.sqrt_lt' (by norm_num : (0 : ℝ) < 150)]
    simp [c6Bodies] at ha hb
    rcases ha with rfl | rfl <;> rcases hb with rfl | rfl <;> norm_num
  refine ⟨⟨by simp [c6Bodies], hall⟩, ?_⟩
  have h := C6_centroid_is_mean c6Bodies (by simp [c6Bodies]) hall
  rw [h]
  norm_num [c6Bodies]

/-- `NBody::update` (nbody.rs:185-231) = `App::update_entities`
(main.rs:216-254).  In source order: push a trail snapshot of every body;
run the pairwise force loops; `step` every body with its accumulated force,
the live speed `t` and drag; compute the RANSAC centroid of the *stepped*
bodies; shift every body's `x` and `y` by 10% of the centroid; then shift
every trail marker's `x` by 10% of the centroid — **twice**, because
nbody.rs:229-230 (= main.rs:252-253) both read `e.x -= 0.1 * centroid.0`
and no line touches the trail `y`.

Result is `none` for an empty collection: the outer loop bound
`self.entities.len() - 1` is a `usize` subtraction that underflows at
`len() == 0` (debug builds panic; release builds wrap the bound to
`usize::MAX`, freezing the loop — the source's own
`// TODO: program freezes when removing last entity`). -/
noncomputable def NBody.update (g t drag : ℝ) (entities trail : List Body) :
    Option (List Body × List Body) :=
  let trail1 := trail ++ entities.map Body.get_trail
  if entities.isEmpty then none
  else
    let forces := computeForces g entities
    let stepped := (List.range entities.length).map
      (fun i => (entities.getD i default).step (forces.getD i (0, 0)) t drag)
    let c := ransac_centroid stepped
    let es1 := stepped.map (fun e => { e with x := e.x - 0.1 * c.1 })
    let es2 := es1.map (fun e => { e with y := e.y - 0.1 * c.2 })
    let tr1 := trail1.map (fun e => { e with x := e.x - 0.1 * c.1 })
    let tr2 := tr1.map (fun e => { e with x := e.x - 0.1 * c.1 })
    some (es2, tr2)

/-- `k` consecutive calls of `NBody::update` on the (entities, trail) state,
as driven by the engine loop; any failing step aborts the chain. -/
noncomputable def NBody.updateIter (g t drag : ℝ) :
    ℕ → List Body × List Body → Option (List Body × List Body)
  | 0, st => some st
  | k + 1, st => (NBody.update g t drag st.1 st.2).bind (NBody.updateIter g t drag k)

lemma replicate_getD (n i : ℕ) :
    (List.replicate n ((0 : ℝ), (0 : ℝ))).getD i (0, 0) = (0, 0) := by
  rw [List.getD_eq_getElem?_getD, List.getElem?_replicate]
  split <;> rfl

lemma range_map_getD {α β : Type _} [Inhabited α] (l : List α) (f : α → β) :
    (List.range l.length).map (fun i => f (l.getD i default)) = l.map f := by
  induction l with
  | nil => rfl
  | cons a t ih =>
    simp only [List.length_cons, List.range_succ_eq_map, List.map_cons, List.map_map,
      Function.comp_def, List.getD_cons_zero, List.getD_cons_succ]
    rw [ih]

lemma pairContribution_zero_g (a b : Body) : pairContribution 0 a b = (0, 0) := by
  unfold pairContribution pairForceMag
  simp

lemma applyPairForce_zero_g (es : List Body) (p : ℕ × ℕ) :
    applyPairForce 0 es (List.replicate es.length (0, 0)) p =
      List.replicate es.length (0, 0) := by
  unfold applyPairForce
  simp only [pairContribution_zero_g, replicate_getD]
  norm_num [List.set_replicate_self]

lemma computeForces_zero_g (es : List Body) :
    computeForces 0 es = List.replicate es.length (0, 0) := by
  unfold computeForces
  generalize forcePairs es.length = ps
  induction ps with
  | nil => rfl
  | cons p t ih => rw [List.foldl_cons, applyPairForce_zero_g]; exact ih

lemma step_zero_force (b : Body) (t drag : ℝ) :
    b.step (0, 0) t drag =
      ⟨b.mass, b.x + b.dx * t, b.y + b.dy * t, b.dx * drag, b.dy * drag⟩ := by
  have h0 : fclamp ((0 : ℝ) / b.mass) (-0.1) 0.1 = 0 := by
    rw [zero_div]
    unfold fclamp
    rw [max_eq_left (by norm_num), min_eq_left (by norm_num)]
  unfold Body.step
  simp only [h0]
  ext <;> simp

/-- Characterization of `NBody.update` at `G = 0`: no forces, so every body
advances inertially (with drag applied to its velocity), then the 10%
centroid recentering is applied — to both coordinates of every body but,
because of the duplicated line, twice to the `x` (and never to the `y`) of
every trail marker. -/
lemma update_zero_g (t drag : ℝ) (es tr : List Body) (h : es ≠ []) :
    NBody.update 0 t drag es tr =
      (let stepped : List Body := es.map (fun e =>
        ⟨e.mass, e.x + e.dx * t, e.y + e.dy * t, e.dx * drag, e.dy * drag⟩)
      let c := ransac_centroid stepped
      some (stepped.map (fun e => ⟨e.mass, e.x - 0.1 * c.1, e.y - 0.1 * c.2, e.dx, e.dy⟩),
        (tr ++ es.map Body.get_trail).map
          (fun e => ⟨e.mass, e.x - 0.1 * c.1 - 0.1 * c.1, e.y, e.dx, e.dy⟩))) := by
  have hstepped : (List.range es.length).map
      (fun i => (es.getD i default).step ((computeForces 0 es).getD i (0, 0)) t drag) =
      es.map (fun e =>
        ⟨e.mass, e.x + e.dx * t, e.y + e.dy * t, e.dx * drag, e.dy * drag⟩) := by
    rw [computeForces_zero_g]
    simp only [replicate_getD]
    rw [range_map_getD es (fun e => e.step (0, 0) t drag)]
    exact List.map_congr_left (fun e _ => step_zero_force e t drag)
  unfold NBody.update
  rw [if_neg (by simpa [List.isEmpty_iff] using h)]
  dsimp only
  rw [hstepped]
  simp only [List.map_map]
  rfl

/-- The body-position half of `ransac_centroid`'s all-inlier behaviour,
shared by several results: for a nonempty collection whose members are all
within the inlier radius of each other, the centroid is the mean of all
positions.  (Same statement as the C6 theorem; kept as a lemma so other
results can reuse it.) -/
lemma ransac_centroid_all_inliers (points : List Body) (hne : points ≠ [])
    (hall : ∀ a ∈ points, ∀ b ∈ points,
      Real.sqrt ((a.x - b.x) ^ 2 + (a.y - b.y) ^ 2) < 150) :
    ransac_centroid points =
      ((points.map Body.x).sum / (points.length : ℝ),
       (points.map Body.y).sum / (points.length : ℝ)) := by
  have hn : 0 < points.length := List.length_pos.mpr hne
  obtain ⟨m, hm⟩ : ∃ m, points.length = m + 1 := ⟨points.length - 1, by omega⟩
  have hinl : ∀ i, i < points.length →
      points.filter (isInlier ((points.getD i default).x, (points.getD i default).y)) =
        points := by
    intro i hi
    refine List.filter_eq_self.mpr fun e he => ?_
    unfold isInlier
    exact decide_eq_true (hall _ (getD_mem_of_lt points i hi) _ he)
  have hstep_id : ∀ (st : (ℝ × ℝ) × ℕ), st.2 = points.length →
      ∀ i, i < points.length → ransacStep points st i = st := by
    intro st hst i hi
    simp only [ransacStep]
    rw [hinl i hi, hst]
    simp
  have hfold_id : ∀ (l : List ℕ) (st : (ℝ × ℝ) × ℕ), st.2 = points.length →
      (∀ i ∈ l, i < points.length) → l.foldl (ransacStep points) st = st := by
    intro l
    induction l with
    | nil => intro st _ _; rfl
    | cons a t ih =>
      intro st hst hmem
      rw [List.foldl_cons, hstep_id st hst a (hmem a (by simp))]
      exact ih st hst (fun i hi => hmem i (by simp [hi]))
  have h0 : ransacStep points ((0, 0), 0) 0 =
      (((points.map Body.x).sum / (points.length : ℝ),
        (points.map Body.y).sum / (points.length : ℝ)), points.length) := by
    simp only [ransacStep]
    rw [hinl 0 hn]
    rw [if_pos (by simpa using hn)]
    rw [foldl_add_pair]
    simp
  unfold ransac_centroid
  rw [show List.range points.length = 0 :: List.map Nat.succ (List.range m) from by
        rw [hm, List.range_succ_eq_map],
      List.foldl_cons, h0,
      hfold_id _ _ rfl (by
        intro i hi
        obtain ⟨j, hj, rfl⟩ := List.mem_map.mp hi
        have := List.mem_range.mp hj
        omega)]

lemma ransac_single (e : Body) : ransac_centroid [e] = (e.x, e.y) := by
  have h := ransac_centroid_all_inliers [e] (by simp) (by
    intro a ha b hb
    simp only [List.mem_singleton] at ha hb
    subst ha; subst hb
    rw [sub_self, sub_self]
    norm_num [Real.sqrt_zero])
  simpa using h

/-- Evaluation of `NBody.update` on a single body: the force loops never run
(`forcePairs 1 = []`), the body drifts inertially and is dragged, the
centroid is the body's own (stepped) position, and the 10% recentering is
applied — once to each body coordinate but twice to the trail marker's `x`
and never to its `y`. -/
lemma update_one (t drag : ℝ) (b : Body) :
    NBody.update 0 t drag [b] [] =
      some ([⟨b.mass, (b.x + b.dx * t) - 0.1 * (b.x + b.dx * t),
              (b.y + b.dy * t) - 0.1 * (b.y + b.dy * t), b.dx * drag, b.dy * drag⟩],
        [⟨0, b.x - 0.1 * (b.x + b.dx * t) - 0.1 * (b.x + b.dx * t), b.y, 0, 0⟩]) := by
  rw [update_zero_g t drag [b] [] (by simp)]
  simp only [List.map_cons, List.map_nil, List.nil_append, ransac_single, Body.get_trail]

/-- C1 (refuting evaluation): with 0 bodies `update` fails — the
`entities.len() - 1` loop bound underflows (`none` in the embedding) — and
with exactly 1 body `update` succeeds but does *not* leave the body's
position unchanged: a unit mass at rest at `(10, 0)` (G = 0, speed 1,
drag 1) ends the step at `(9, 0)`, moved by the 10% centroid recentering. -/
theorem C1_small_collection_guard :
    (∀ g t drag tr, NBody.update g t drag [] tr = none) ∧
    (NBody.update 0 1 1 [⟨1, 10, 0, 0, 0⟩] [] =
        some ([⟨1, 9, 0, 0, 0⟩], [⟨0, 8, 0, 0, 0⟩]) ∧
      ([⟨1, 9, 0, 0, 0⟩] : List Body) ≠ [⟨1, 10, 0, 0, 0⟩]) := by
  refine ⟨fun g t drag tr => by simp [NBody.update], ?_, ?_⟩
  · rw [update_one 1 1 ⟨1, 10, 0, 0, 0⟩]
    norm_num
  · simp only [ne_eq, List.cons.injEq, and_true, Body.mk.injEq]
    norm_num

/-- C2 (refuting evaluation): a single body at `(10, 10)` at rest, G = 0,
speed 1, drag 1.  The computed centroid is `(10, 10)`; the body is correctly
recentred to `(9, 9)`, but its trail marker — snapshot at `(10, 10)` — ends
at `(8, 10)`: the duplicated `e.x -= 0.1 * centroid.0` line (nbody.rs:229-230)
shifts the marker's `x` twice and its `y` never, where the claim demands
`(9, 9)`. -/
theorem C2_trail_recentering_bug :
    NBody.update 0 1 1 [⟨1, 10, 10, 0, 0⟩] [] =
      some ([⟨1, 9, 9, 0, 0⟩], [⟨0, 8, 10, 0, 0⟩]) ∧
    (⟨0, 8, 10, 0, 0⟩ : Body) ≠ ⟨0, 9, 9, 0, 0⟩ := by
  constructor
  · rw [update_one 1 1 ⟨1, 10, 10, 0, 0⟩]
    norm_num
  · simp only [ne_eq, Body.mk.injEq]
    norm_num

/-- C5 (counterexample to the claim as stated): with G = 0 and drag = 1.0 a
single body at rest at `(10, 0)` should, per the claim, keep its position
(`velocity * t = 0`); the code moves it to `(9, 0)` — the 10% centroid
recentering is part of every update step. -/
theorem C5_linear_advance_cex :
    NBody.update 0 1 1 [⟨1, 10, 0, 0, 0⟩] [] =
      some ([⟨1, 9, 0, 0, 0⟩], [⟨0, 8, 0, 0, 0⟩]) ∧
    (9 : ℝ) ≠ 10 + 0 * 1 := by
  constructor
  · rw [update_one 1 1 ⟨1, 10, 0, 0, 0⟩]
    norm_num
  · norm_num

/-- The zero-force, drag-1 body step: pure inertial drift.  Proof-layer
abbreviation for stating the drag-1 behaviour of `NBody.update`. -/
noncomputable def inertial (t : ℝ) (e : Body) : Body :=
  ⟨e.mass, e.x + e.dx * t, e.y + e.dy * t, e.dx, e.dy⟩

lemma update_d1_step (t : ℝ) (es tr : List Body) (h : es ≠ []) :
    NBody.update 0 t 1 es tr =
      some ((es.map (inertial t)).map (fun e =>
          (⟨e.mass, e.x - 0.1 * (ransac_centroid (es.map (inertial t))).1,
            e.y - 0.1 * (ransac_centroid (es.map (inertial t))).2, e.dx, e.dy⟩ : Body)),
        (tr ++ es.map Body.get_trail).map (fun e =>
          (⟨e.mass, e.x - 0.1 * (ransac_centroid (es.map (inertial t))).1
            - 0.1 * (ransac_centroid (es.map (inertial t))).1, e.y, e.dx, e.dy⟩ : Body))) := by
  rw [update_zero_g t 1 es tr h]
  dsimp only
  rw [show es.map (fun e =>
        (⟨e.mass, e.x + e.dx * t, e.y + e.dy * t, e.dx * 1, e.dy * 1⟩ : Body))
      = es.map (inertial t) from
    List.map_congr_left (fun e _ => by unfold inertial; ext <;> simp)]

lemma updateIter_d1_velocities (t : ℝ) : ∀ (k : ℕ) (es tr : List Body), es ≠ [] →
    ∃ p, NBody.updateIter 0 t 1 k (es, tr) = some p ∧
      p.1.map Body.dx = es.map Body.dx ∧ p.1.map Body.dy = es.map Body.dy := by
  intro k
  induction k with
  | zero => intro es tr h; exact ⟨(es, tr), rfl, rfl, rfl⟩
  | succ n ih =>
    intro es tr h
    have h2 : ((es.map (inertial t)).map (fun e =>
        (⟨e.mass, e.x - 0.1 * (ransac_centroid (es.map (inertial t))).1,
          e.y - 0.1 * (ransac_centroid (es.map (inertial t))).2, e.dx, e.dy⟩ : Body))) ≠ [] := by
      simp [h]
    obtain ⟨p, hp, hdx, hdy⟩ := ih _
      ((tr ++ es.map Body.get_trail).map (fun e =>
        (⟨e.mass, e.x - 0.1 * (ransac_centroid (es.map (inertial t))).1
          - 0.1 * (ransac_centroid (es.map (inertial t))).1, e.y, e.dx, e.dy⟩ : Body))) h2
    refine ⟨p, ?_, ?_, ?_⟩
    · rw [show NBody.updateIter 0 t 1 (n + 1) (es, tr) =
          (NBody.update 0 t 1 es tr).bind (NBody.updateIter 0 t 1 n) from rfl,
        update_d1_step t es tr h]
      exact hp
    · rw [hdx]
      simp only [List.map_map]
      exact List.map_congr_left (fun e _ => rfl)
    · rw [hdy]
      simp only [List.map_map]
      exact List.map_congr_left (fun e _ => rfl)

lemma getD_map_lt {α β : Type _} [Inhabited α] [Inhabited β] (f : α → β) (l : List α)
    (i : ℕ) (hi : i < l.length) :
    (l.map f).getD i default = f (l.getD i default) := by
  rw [List.getD_eq_getElem?_getD, List.getElem?_map, List.getElem?_eq_getElem hi,
    List.getD_eq_getElem?_getD, List.getElem?_eq_getElem hi]
  rfl

/-- C5 (amended): with G = 0 and drag = 1.0, every body's velocity is
unchanged across any number of update steps; but each step changes each
body's position by velocity·t *minus 10% of the computed centroid* (the
recentering offset applied to every body), not by velocity·t alone. -/
theorem C5_inertial_amended (t : ℝ) (k : ℕ) (es tr : List Body) (h : es ≠ []) :
    (∃ p, NBody.updateIter 0 t 1 k (es, tr) = some p ∧
        p.1.map Body.dx = es.map Body.dx ∧ p.1.map Body.dy = es.map Body.dy) ∧
    (∀ es2 tr2, NBody.update 0 t 1 es tr = some (es2, tr2) →
      ∀ i, i < es.length →
        (es2.getD i default).x = (es.getD i default).x + (es.getD i default).dx * t -
          0.1 * (ransac_centroid (es.map (inertial t))).1 ∧
        (es2.getD i default).y = (es.getD i default).y + (es.getD i default).dy * t -
          0.1 * (ransac_centroid (es.map (inertial t))).2) := by
  refine ⟨updateIter_d1_velocities t k es tr h, ?_⟩
  intro es2 tr2 hup i hi
  rw [update_d1_step t es tr h] at hup
  simp only [Option.some.injEq, Prod.mk.injEq] at hup
  obtain ⟨he, -⟩ := hup
  subst he
  rw [getD_map_lt _ _ i (by simpa using hi), getD_map_lt _ _ i hi]
  exact ⟨rfl, rfl⟩

theorem C5_inertial_amended_witness :
    (([⟨1, 10, 0, 0, 0⟩] : List Body) ≠ []) ∧
    ((∃ p, NBody.updateIter 0 1 1 2 ([⟨1, 10, 0, 0, 0⟩], []) = some p ∧
        p.1.map Body.dx = ([⟨1, 10, 0, 0, 0⟩] : List Body).map Body.dx ∧
        p.1.map Body.dy = ([⟨1, 10, 0, 0, 0⟩] : List Body).map Body.dy) ∧
    (∀ es2 tr2, NBody.update 0 1 1 [⟨1, 10, 0, 0, 0⟩] [] = some (es2, tr2) →
      ∀ i, i < ([⟨1, 10, 0, 0, 0⟩] : List Body).length →
        (es2.getD i default).x = (([⟨1, 10, 0, 0, 0⟩] : List Body).getD i default).x +
            (([⟨1, 10, 0, 0, 0⟩] : List Body).getD i default).dx * 1 -
          0.1 * (ransac_centroid (([⟨1, 10, 0, 0, 0⟩] : List Body).map (inertial 1))).1 ∧
        (es2.getD i default).y = (([⟨1, 10, 0, 0, 0⟩] : List Body).getD i default).y +
            (([⟨1, 10, 0, 0, 0⟩] : List Body).getD i default).dy * 1 -
          0.1 * (ransac_centroid (([⟨1, 10, 0, 0, 0⟩] : List Body).map (inertial 1))).2)) :=
  ⟨by simp, C5_inertial_amended 1 2 [⟨1, 10, 0, 0, 0⟩] [] (by simp)⟩

/-- `Logger::log` (simulations.rs:110-115) = `App::log` (main.rs:190-195):
push the entry at the back of the deque; if the buffer now holds more than
100 entries, evict the front (oldest) one. -/
def Logger.log (logs : List String) (entry : String) : List String :=
  let logs1 := logs ++ [entry]
  if logs1.length > 100 then logs1.drop 1 else logs1

/-- A whole sequence of log calls, starting from the empty buffer that
`Logger::new` (simulations.rs:102-105) / `App::new` (main.rs:141) creates. -/
def Logger.logAll (entries : List String) : List String :=
  entries.foldl Logger.log []

lemma logAll_eq_drop (entries : List String) :
    Logger.logAll entries = entries.drop (entries.length - 100) := by
  induction entries using List.reverseRecOn with
  | nil => rfl
  | append_singleton l a ih =>
    unfold Logger.logAll at ih ⊢
    rw [List.foldl_append, List.foldl_cons, List.foldl_nil, ih]
    unfold Logger.log
    dsimp only
    simp only [List.length_append, List.length_singleton, List.length_drop]
    rcases le_or_lt 100 l.length with hle | hlt
    · rw [if_pos (by omega)]
      rw [List.drop_append_of_le_length (by rw [List.length_drop]; omega),
        List.drop_append_of_le_length (by omega), List.drop_drop,
        show l.length - 100 + 1 = l.length + 1 - 100 from by omega]
    · rw [if_neg (by omega), Nat.sub_eq_zero_of_le (by omega),
        Nat.sub_eq_zero_of_le (by omega), List.drop_zero, List.drop_zero]

/-- C7: the log buffer never holds more than 100 entries, and after more
than 100 log calls exactly the most recent 100 remain, in insertion order
(the oldest entries evicted first): the buffer is the input sequence with
its oldest `length - 100` entries dropped. -/
theorem C7_log_capacity (entries : List String) :
    (Logger.logAll entries).length ≤ 100 ∧
    (100 < entries.length →
      Logger.logAll entries = entries.drop (entries.length - 100)) := by
  constructor
  · rw [logAll_eq_drop, List.length_drop]
    omega
  · intro _
    exact logAll_eq_drop entries

theorem C7_log_capacity_witness :
    100 < (List.replicate 101 "tick").length ∧
    Logger.logAll (List.replicate 101 "tick") =
      (List.replicate 101 "tick").drop ((List.replicate 101 "tick").length - 100) :=
  ⟨by simp, (C7_log_capacity (List.replicate 101 "tick")).2 (by simp)⟩

/-- `u64::MAX`, the saturation value of Rust's `as u64` float-to-int cast. -/
def U64MAX : ℕ := 18446744073709551615

/-- The FPS update of the run loop (simulations.rs:153-154 = main.rs:172-173):
`self.fps = ((self.fps as f64 * 0.99) + (1000. / delta_time as f64 * 0.01)) as u64`.
There is no conditional around it.  For `delta = 0` the division `1000. / 0.`
is IEEE `+∞`; `+∞ * 0.01` stays `+∞`, adding the finite first term stays
`+∞`, and Rust's saturating `as u64` cast maps `+∞` to `u64::MAX` — the
`if delta = 0` branch of the embedding is that IEEE outcome made explicit.
For `delta ≠ 0` the cast truncates the nonnegative finite value, saturating
at `u64::MAX`. -/
noncomputable def fpsNext (fps delta : ℕ) : ℕ :=
  if delta = 0 then U64MAX
  else min (Nat.floor ((fps : ℝ) * 0.99 + 1000 / (delta : ℝ) * 0.01)) U64MAX

/-- Modelled from the spec: the claim's EMA, "99% of the previous value plus
1% of the instantaneous 1000/elapsed_ms". -/
noncomputable def specEMA (fps delta : ℕ) : ℝ :=
  0.99 * (fps : ℝ) + 0.01 * (1000 / (delta : ℝ))

/-- C8 (counterexample): there is no guard against `elapsed_ms = 0` — a
zero-duration tick drives the FPS estimate to the saturated `u64::MAX`,
a degenerate (overflowing) value. -/
theorem C8_zero_tick_cex : fpsNext 60 0 = 18446744073709551615 := by
  simp [fpsNext, U64MAX]

/-- C8 (amended): on every tick with nonzero elapsed time the FPS estimate
is recomputed as the truncated, `u64`-saturated EMA
`0.99·previous + 0.01·(1000/elapsed_ms)`; but the computation is *not*
guarded against `elapsed_ms = 0`, where it produces the degenerate
saturated value `u64::MAX`. -/
theorem C8_fps_ema (fps delta : ℕ) :
    (delta ≠ 0 → fpsNext fps delta = min (Nat.floor (specEMA fps delta)) U64MAX) ∧
    fpsNext fps 0 = U64MAX := by
  constructor
  · intro h
    unfold fpsNext specEMA
    rw [if_neg h]
    congr 2
    ring
  · simp [fpsNext]

theorem C8_fps_ema_witness :
    (1000 ≠ 0) ∧
    fpsNext 60 1000 = min (Nat.floor (specEMA 60 1000)) U64MAX ∧
    fpsNext 60 1000 = 59 := by
  refine ⟨by norm_num, (C8_fps_ema 60 1000).1 (by norm_num), ?_⟩
  rw [(C8_fps_ema 60 1000).1 (by norm_num)]
  rw [show specEMA 60 1000 = 59.41 from by unfold specEMA; norm_num]
  rw [show Nat.floor (59.41 : ℝ) = 59 from by
    rw [Nat.floor_eq_iff (by norm_num)]
    norm_num]
  simp [U64MAX]

/-- `App::zoom_in` (main.rs:178-182): decrement the zoom only when
`zoom > 1`. -/
def App.zoom_in (z : ℕ) : ℕ := if z > 1 then z - 1 else z

/-- `App::zoom_out` (main.rs:184-188): increment the zoom only when
`zoom < 20`. -/
def App.zoom_out (z : ℕ) : ℕ := if z < 20 then z + 1 else z

/-- The two zoom inputs, keys '-' and '+' (main.rs:281-282). -/
inductive ZoomOp where
  | zoomIn : ZoomOp
  | zoomOut : ZoomOp

/-- Dispatch of a zoom key on the current zoom level. -/
def applyZoom (z : ℕ) : ZoomOp → ℕ
  | ZoomOp.zoomIn => App.zoom_in z
  | ZoomOp.zoomOut => App.zoom_out z

/-- `App::new` starts with `zoom: 10` (main.rs:149). -/
def initialZoom : ℕ := 10

/-- C10: starting from the initial zoom 10, any sequence of zoom_in/zoom_out
key presses keeps the zoom level within `[1, 20]`, so the rendered canvas
bound `10 * zoom` per axis never exceeds `200`. -/
theorem C10_zoom_bounds (ops : List ZoomOp) :
    1 ≤ ops.foldl applyZoom initialZoom ∧ ops.foldl applyZoom initialZoom ≤ 20 ∧
      10 * ops.foldl applyZoom initialZoom ≤ 200 := by
  have key : ∀ (l : List ZoomOp) (z : ℕ), 1 ≤ z → z ≤ 20 →
      1 ≤ l.foldl applyZoom z ∧ l.foldl applyZoom z ≤ 20 := by
    intro l
    induction l with
    | nil => intro z h1 h2; exact ⟨h1, h2⟩
    | cons op t ih =>
      intro z h1 h2
      rw [List.foldl_cons]
      apply ih
      · cases op <;> simp only [applyZoom, App.zoom_in, App.zoom_out] <;> split <;> omega
      · cases op <;> simp only [applyZoom, App.zoom_in, App.zoom_out] <;> split <;> omega
  obtain ⟨ha, hb⟩ := key ops initialZoom (by norm_num [initialZoom])
    (by norm_num [initialZoom])
  exact ⟨ha, hb, by omega⟩
